import Mathlib

/-!
# Verification of the run-aware placeholder substitution engine

Shallow embedding of `src/exec_reports/replace.py`,
`src/exec_reports/utils/merge_doc.py` and
`src/exec_reports/utils/merge_data.py` from the report-automation
repository, together with theorems settling the frozen claims about the
template placeholder substitution engine, the document merger and the
candidate-number extraction helper.

Text is modelled as `List Char`; a formatting run is a record holding its
text and an opaque formatting tag.  Python string primitives used by the
source (`str.find`, `str.replace`, the `in` operator) are given faithful
executable models below.  File-system effects of the orchestration
functions are modelled by explicit environment records of total functions
returning `Except` values: a Python call that may raise is a field whose
`Except.error` branch carries the exception message.
-/

set_option autoImplicit false

namespace ExecReports

/-! ## Python string primitives -/

/-- `beginsWith pat s` models "`s` starts with `pat`" on character lists
(the check Python performs at each position during `find`/`replace`). -/
def beginsWith : List Char → List Char → Bool
  | [], _ => true
  | _ :: _, [] => false
  | a :: as, b :: bs => a == b && beginsWith as bs

/-- Model of Python `s.find(pat)` restricted to a found result: index of
the first occurrence of `pat` in `s`, `none` when absent (Python `-1`). -/
def strFind (s pat : List Char) : Option Nat :=
  match s with
  | [] => if beginsWith pat [] then some 0 else none
  | c :: tl =>
    if beginsWith pat (c :: tl) then some 0
    else (strFind tl pat).map (· + 1)

/-- Model of Python `pat in s` (substring containment). -/
def containsTok (s pat : List Char) : Bool :=
  (strFind s pat).isSome

/-- Fuel-driven core of `pyReplace`; the fuel is an upper bound on the
number of characters still to be scanned, so `s.length` always suffices. -/
def pyReplaceAux (pat val : List Char) : Nat → List Char → List Char
  | _, [] => []
  | 0, s => s
  | fuel + 1, c :: tl =>
    if beginsWith pat (c :: tl) then
      val ++ pyReplaceAux pat val fuel ((c :: tl).drop pat.length)
    else
      c :: pyReplaceAux pat val fuel tl

/-- Model of Python `s.replace(pat, val)`: replace every non-overlapping
occurrence of `pat` in `s`, scanning left to right.  Placeholder tokens
in this system always have the shape brace-identifier-brace, hence are
never empty; the empty-pattern guard keeps the function total. -/
def pyReplace (s pat val : List Char) : List Char :=
  if pat = [] then s else pyReplaceAux pat val s.length s

/-! ## Runs and the substitution engine (`replace_text_in_runs`) -/

/-- A formatting run: a fragment of uniformly styled text.  The style is
opaque to the engine and is modelled by a tag the engine never touches. -/
structure Run where
  text : List Char
  fmt : Nat
deriving DecidableEq, Repr

/-- Concatenated text of a scope's runs (`''.join(run.text for run in runs)`). -/
def fullText (runs : List Run) : List Char :=
  (runs.map Run.text).flatten

/-- The run-local replacement loop body of `replace_text_in_runs`
(lines 10-15 of `replace.py`): each `(placeholder, value)` pair is tried in
order against the running text of the run, which is updated after every
replacement (`original_text = run.text`). -/
def runLocalText (replacements : List (List Char × List Char)) (t : List Char) :
    List Char :=
  replacements.foldl
    (fun t pv => if containsTok t pv.1 then pyReplace t pv.1 pv.2 else t) t

/-- Run-local pass on one run; an empty-text run is skipped
(`if run.text:`). -/
def runLocal (replacements : List (List Char × List Char)) (r : Run) : Run :=
  if r.text = [] then r else { r with text := runLocalText replacements r.text }

/-- One entry of the `run_positions` list built by `replace_text_in_runs`:
run index, start offset, end offset and captured text. -/
structure RunPos where
  idx : Nat
  left : Nat
  right : Nat
  txt : List Char
deriving DecidableEq, Repr

/-- The position-accumulating loop of lines 30-36 of `replace.py`. -/
def runPositionsAux (i pos : Nat) : List Run → List RunPos
  | [] => []
  | r :: rs =>
    ⟨i, pos, pos + r.text.length, r.text⟩ ::
      runPositionsAux (i + 1) (pos + r.text.length) rs

def runPositions (runs : List Run) : List RunPos :=
  runPositionsAux 0 0 runs

/-- Overwrite the text of the run at index `idx`, keeping its formatting
(the in-place assignment `run.text = new_text`). -/
def setRunText : List Run → Nat → List Char → List Run
  | [], _, _ => []
  | r :: rs, 0, t => { r with text := t } :: rs
  | r :: rs, n + 1, t => r :: setRunText rs n t

/-- New text of the first affected run (lines 49-57 of `replace.py`):
text before the placeholder, the entire replacement value, text after. -/
def cutFirst (ps pe : Nat) (value : List Char) (p : RunPos) : List Char :=
  p.txt.take (ps - p.left) ++ value ++ p.txt.drop (min p.txt.length (pe - p.left))

/-- New text of every subsequent affected run (lines 58-64): the portion
inside the placeholder span is removed. -/
def cutRest (ps pe : Nat) (p : RunPos) : List Char :=
  p.txt.take (ps - p.left) ++ p.txt.drop (min p.txt.length (pe - p.left))

/-- One cross-run splice (lines 29-64 of `replace.py`): locate the runs
overlapping the placeholder span `[ps, pe)`, give the first one the
replacement value and strip the span from the others. -/
def spliceOnce (runs : List Run) (ps pe : Nat) (value : List Char) : List Run :=
  match (runPositions runs).filter
      (fun p => decide (p.left < pe) && decide (ps < p.right)) with
  | [] => runs
  | firstp :: rest =>
    rest.foldl (fun rs p => setRunText rs p.idx (cutRest ps pe p))
      (setRunText runs firstp.idx (cutFirst ps pe value firstp))

/-- Body of the cross-run loop for one `(placeholder, value)` pair: when
the token occurs in the current concatenated text, splice its first
occurrence and recompute the concatenated text (lines 20-67). -/
def crossStep (st : List Run × List Char) (pv : List Char × List Char) :
    List Run × List Char :=
  match strFind st.2 pv.1 with
  | some ps =>
    let rs := spliceOnce st.1 ps (ps + pv.1.length) pv.2
    (rs, fullText rs)
  | none => st

/-- The cross-run loop of lines 17-67 of `replace.py`: iterate over the
replacement pairs, splicing the first occurrence of each token found in
the concatenated text and recomputing that text after each splice. -/
def crossRunPass (runs : List Run)
    (replacements : List (List Char × List Char)) : List Run :=
  (replacements.foldl crossStep (runs, fullText runs)).1

/-- `replace_text_in_runs(runs, replacements)`: run-local pass over every
run, then the cross-run pass over the concatenated text. -/
def replace_text_in_runs (runs : List Run)
    (replacements : List (List Char × List Char)) : List Run :=
  crossRunPass (runs.map (runLocal replacements)) replacements

/-! ## Offset bookkeeping used to state the splice characterization -/

/-- Start offset of run `k` within the concatenated scope text: the sum of
the lengths of the runs before it. -/
def offAt (rs : List Run) (k : Nat) : Nat :=
  ((rs.take k).map fun r => r.text.length).sum

/-- Text of run `k`, empty when out of range. -/
def textAt (rs : List Run) (k : Nat) : List Char :=
  (rs[k]?.map Run.text).getD []

/-- The position entry the engine builds for run `k`. -/
def posSpec (rs : List Run) (k : Nat) : RunPos :=
  ⟨k, offAt rs k, offAt rs k + (textAt rs k).length, textAt rs k⟩

/-- Run `k` overlaps the placeholder span `[ps, pe)`
(`start < placeholder_end and end > placeholder_start`). -/
def Affected (rs : List Run) (ps pe k : Nat) : Prop :=
  offAt rs k < pe ∧ ps < offAt rs k + (textAt rs k).length

instance (rs : List Run) (ps pe k : Nat) : Decidable (Affected rs ps pe k) :=
  inferInstanceAs (Decidable (_ ∧ _))

/-! ## Document model and `replace_all_text` -/

/-- A paragraph: an ordered sequence of runs. -/
structure Paragraph where
  runs : List Run
deriving DecidableEq, Repr

/-- A table cell, owning its paragraphs. -/
structure TableCell where
  paragraphs : List Paragraph
deriving DecidableEq, Repr

/-- A table: ordered rows, each an ordered list of cells. -/
structure Table where
  rows : List (List TableCell)
deriving DecidableEq, Repr

/-- A header or footer: paragraphs plus tables. -/
structure HeaderFooter where
  paragraphs : List Paragraph
  tables : List Table
deriving DecidableEq, Repr

/-- A section, owning one header and one footer. -/
structure DocSection where
  header : HeaderFooter
  footer : HeaderFooter
deriving DecidableEq, Repr

/-- The document: top-level paragraphs, top-level tables, sections. -/
structure DocxDocument where
  paragraphs : List Paragraph
  tables : List Table
  sections : List DocSection
deriving DecidableEq, Repr

/-- Per-paragraph call site of `replace_all_text`: paragraphs with no runs
are skipped (`if paragraph.runs:`). -/
def replacePara (reps : List (List Char × List Char)) (p : Paragraph) :
    Paragraph :=
  if p.runs = [] then p else ⟨replace_text_in_runs p.runs reps⟩

/-- Table traversal of `replace_all_text`: every cell of every row,
row-major, each cell's paragraphs processed in order. -/
def replaceTable (reps : List (List Char × List Char)) (t : Table) : Table :=
  ⟨t.rows.map fun row => row.map fun c => ⟨c.paragraphs.map (replacePara reps)⟩⟩

/-- `replace_all_text(doc, replacements)` (lines 69-104 of `replace.py`):
top-level paragraphs, top-level tables, then for each section the header
paragraphs, the footer paragraphs and the footer tables.  Header tables
are not traversed by the source and are carried over unchanged. -/
def replace_all_text (doc : DocxDocument)
    (reps : List (List Char × List Char)) : DocxDocument :=
  { paragraphs := doc.paragraphs.map (replacePara reps)
    tables := doc.tables.map (replaceTable reps)
    sections := doc.sections.map fun sec =>
      { header := { paragraphs := sec.header.paragraphs.map (replacePara reps)
                    tables := sec.header.tables }
        footer := { paragraphs := sec.footer.paragraphs.map (replacePara reps)
                    tables := sec.footer.tables.map (replaceTable reps) } } }

/-- Specification-side enumeration of a table's scopes: the run list of
every paragraph of every cell, row-major. -/
def tableScopes (t : Table) : List (List Run) :=
  t.rows.flatMap fun row =>
    row.flatMap fun c => c.paragraphs.map Paragraph.runs

/-- Specification-side enumeration of the scopes the spec says one
substitution call must cover: top-level paragraphs, top-level table cells,
then per section the header paragraphs, footer paragraphs and footer-table
cells. -/
def scopesOf (doc : DocxDocument) : List (List Run) :=
  doc.paragraphs.map Paragraph.runs
    ++ doc.tables.flatMap tableScopes
    ++ doc.sections.flatMap fun sec =>
        sec.header.paragraphs.map Paragraph.runs
          ++ sec.footer.paragraphs.map Paragraph.runs
          ++ sec.footer.tables.flatMap tableScopes

/-- What the engine does to one scope: nothing when the paragraph has no
runs, otherwise `replace_text_in_runs`. -/
def processScope (reps : List (List Char × List Char)) (runs : List Run) :
    List Run :=
  if runs = [] then runs else replace_text_in_runs runs reps

/-! ## Orchestration: `process_document_template` -/

/-- The result dictionary returned by `process_document_template`. -/
structure ProcResult where
  success : Bool
  message : String
  output_file : Option String
deriving DecidableEq, Repr

/-- Outcome of reading and parsing the JSON record: either the specific
`json.JSONDecodeError` the source catches first, or any other exception. -/
inductive JsonReadError where
  | jsonDecode (msg : String)
  | other (msg : String)
deriving DecidableEq, Repr

/-- File-system and library effects used by `process_document_template`,
modelled as total functions; an `Except.error` branch models a raised
exception carrying its message. -/
structure Env where
  pathExists : String → Bool
  makedirs : String → Except String Unit
  readRecord : String → Except JsonReadError (List (String × String))
  loadDoc : String → Except String DocxDocument
  saveDoc : String → DocxDocument → Except String Unit
  timestamp : String

/-- Model of `os.path.basename` for slash-separated paths: the part of the
path after the last slash. -/
def pyBasename (p : String) : String :=
  ⟨(p.data.reverse.takeWhile fun c => !(c == '/')).reverse⟩

/-- Model of `os.path.splitext(...)[0]` on a basename: strip the suffix
from the last dot on, unless the name has no dot or everything before that
dot is dots (Python keeps names like dot-files whole). -/
def splitextBase (s : String) : String :=
  let ext := s.data.reverse.takeWhile fun c => !(c == '.')
  if ext.length = s.data.length then s
  else
    let stem := s.data.take (s.data.length - ext.length - 1)
    if stem.all (fun c => c == '.') then s else ⟨stem⟩

/-- `process_document_template(candidate_data_path, template_path,
output_dir)` (lines 106-179 of `replace.py`): validate both input paths,
create the output directory, load the record, build the replacement
mapping sending each key wrapped in braces to its stringified value, load
the template, substitute, and save under a timestamped name; every failure
is caught and reported as a `ProcResult` with `success := false` and no
output file.  Record values are modelled post-`str()` as strings. -/
def process_document_template (env : Env)
    (candidate_data_path template_path output_dir : String) : ProcResult :=
  if env.pathExists candidate_data_path = false then
    { success := false
      message := "Candidate data file not found: " ++ candidate_data_path
      output_file := none }
  else if env.pathExists template_path = false then
    { success := false
      message := "Template file not found: " ++ template_path
      output_file := none }
  else
    match env.makedirs output_dir with
    | .error e =>
      { success := false
        message := "Error processing document: " ++ e
        output_file := none }
    | .ok _ =>
      match env.readRecord candidate_data_path with
      | .error (.jsonDecode e) =>
        { success := false
          message := "Error reading JSON file: " ++ e
          output_file := none }
      | .error (.other e) =>
        { success := false
          message := "Error processing document: " ++ e
          output_file := none }
      | .ok data =>
        match env.loadDoc template_path with
        | .error e =>
          { success := false
            message := "Error processing document: " ++ e
            output_file := none }
        | .ok doc =>
          let replacements := data.map fun kv =>
            ('\x7b' :: (kv.1.data ++ ['\x7d']), kv.2.data)
          let doc2 := replace_all_text doc replacements
          let output_path := output_dir ++ "/" ++
            splitextBase (pyBasename candidate_data_path) ++ "_report_" ++
            env.timestamp ++ ".docx"
          match env.saveDoc output_path doc2 with
          | .error e =>
            { success := false
              message := "Error processing document: " ++ e
              output_file := none }
          | .ok _ =>
            { success := true
              message := "Document processed successfully. Replaced " ++
                toString replacements.length ++ " placeholders."
              output_file := some output_path }

/-! ## Orchestration: `merge_shortlist_documents` -/

/-- The result dictionary returned by `merge_shortlist_documents`
(the success-only bookkeeping keys `overview`, `candidates`, `end_page`
are not modelled). -/
structure MergeResult where
  success : Bool
  message : String
  output_file : Option String
  sections_merged : Option Nat
deriving DecidableEq, Repr

/-- File-system effects used by `merge_shortlist_documents`.  Loading a
document (`Document(path)`) and appending it are collapsed into `loadDoc`,
whose error branch models any exception raised while composing. -/
structure MergeEnv where
  pathExists : String → Bool
  loadDoc : String → Except String Unit
  mkdirParent : String → Except String Unit
  save : String → Except String Unit

/-- The candidate-validation loop (`for i, candidate_path in
enumerate(candidate_paths, 1)`): first missing candidate path with its
1-based position, `none` when all exist. -/
def findMissingCandidate (env : MergeEnv) :
    Nat → List String → Option (Nat × String)
  | _, [] => none
  | i, p :: ps =>
    if env.pathExists p = true then findMissingCandidate env (i + 1) ps
    else some (i, p)

/-- Loading (and appending) each candidate document in order; the first
raised exception aborts. -/
def loadAllDocs (env : MergeEnv) : List String → Except String Unit
  | [] => .ok ()
  | p :: ps =>
    match env.loadDoc p with
    | .error e => .error e
    | .ok _ => loadAllDocs env ps

/-- `merge_shortlist_documents(overview_path, candidate_paths,
output_path, end_page_path)` (`merge_doc.py` lines 54-117): validate the
overview path, the end-page path, then every candidate path in order;
only then load and compose the documents, create the output directory and
save.  The second component of the result collects the files written: the
output path on a successful save, nothing otherwise. -/
def merge_shortlist_documents (env : MergeEnv) (overview_path : String)
    (candidate_paths : List String) (output_path end_page_path : String) :
    MergeResult × List String :=
  if env.pathExists overview_path = false then
    ({ success := false
       message := "Overview document not found: " ++ overview_path
       output_file := none
       sections_merged := none }, [])
  else if env.pathExists end_page_path = false then
    ({ success := false
       message := "End page document not found: " ++ end_page_path
       output_file := none
       sections_merged := none }, [])
  else
    match findMissingCandidate env 1 candidate_paths with
    | some ip =>
      ({ success := false
         message := "Candidate document " ++ toString ip.1 ++
           " not found: " ++ ip.2
         output_file := none
         sections_merged := none }, [])
    | none =>
      match env.loadDoc overview_path with
      | .error e =>
        ({ success := false
           message := "Error merging documents: " ++ e
           output_file := none
           sections_merged := none }, [])
      | .ok _ =>
        match loadAllDocs env candidate_paths with
        | .error e =>
          ({ success := false
             message := "Error merging documents: " ++ e
             output_file := none
             sections_merged := none }, [])
        | .ok _ =>
          match env.loadDoc end_page_path with
          | .error e =>
            ({ success := false
               message := "Error merging documents: " ++ e
               output_file := none
               sections_merged := none }, [])
          | .ok _ =>
            match env.mkdirParent output_path with
            | .error e =>
              ({ success := false
                 message := "Error merging documents: " ++ e
                 output_file := none
                 sections_merged := none }, [])
            | .ok _ =>
              match env.save output_path with
              | .error e =>
                ({ success := false
                   message := "Error merging documents: " ++ e
                   output_file := none
                   sections_merged := none }, [])
              | .ok _ =>
                ({ success := true
                   message := "Successfully merged " ++
                     toString (1 + candidate_paths.length + 1) ++
                     " sections into report"
                   output_file := some output_path
                   sections_merged := some (1 + candidate_paths.length + 1) },
                 [output_path])

/-! ## `extract_candidate_number` (`merge_data.py`) -/

/-- Model of Python `str.split('_')` on character lists. -/
def splitUnd : List Char → List (List Char)
  | [] => [[]]
  | c :: rest =>
    match splitUnd rest with
    | [] => [[c]]
    | h :: t => if c = '_' then [] :: h :: t else (c :: h) :: t

/-- ASCII whitespace accepted (and stripped) by Python `int()`. -/
def isPySpace (c : Char) : Bool :=
  c == ' ' || c == '\t' || c == '\n' || c == '\r' || c == '\x0b' || c == '\x0c'

/-- Value of a non-empty all-digit string. -/
def digitsVal? (l : List Char) : Option Nat :=
  if l = [] then none
  else if l.all (fun c => c.isDigit) then
    some (l.foldl (fun a c => a * 10 + (c.toNat - 48)) 0)
  else none

/-- Model of Python `int(s)` for ASCII decimal literals: surrounding
whitespace stripped, one optional sign, at least one digit; `none` models
the `ValueError` the source catches. -/
def pyInt (s : List Char) : Option Int :=
  match (((s.dropWhile isPySpace).reverse.dropWhile isPySpace).reverse :
      List Char) with
  | '+' :: ds => (digitsVal? ds).map Int.ofNat
  | '-' :: ds => (digitsVal? ds).map fun n => -(n : Int)
  | ds => (digitsVal? ds).map Int.ofNat

/-- `extract_candidate_number(filepath)` (`merge_data.py` lines 44-62):
split the basename on underscores; when there are at least two parts and
the first is the word candidate, parse the second as an integer, falling
back to the constant sort key 999 when parsing raises; otherwise 999.
The Python locals `basename` and `parts` are inlined. -/
def extract_candidate_number (filepath : String) : Int :=
  if 2 ≤ (splitUnd (pyBasename filepath).data).length ∧
      (splitUnd (pyBasename filepath).data).getD 0 [] = "candidate".data then
    match pyInt ((splitUnd (pyBasename filepath).data).getD 1 []) with
    | some n => n
    | none => 999
  else 999

/-! ## Concrete environments used by the witnesses -/

/-- An environment in which no path exists. -/
def envAllMissing : Env where
  pathExists := fun _ => false
  makedirs := fun _ => .ok ()
  readRecord := fun _ => .error (.other "boom")
  loadDoc := fun _ => .error "boom"
  saveDoc := fun _ _ => .error "boom"
  timestamp := "20250101_000000"

/-- An environment in which every step succeeds: the record has two keys
and the template document is empty, so no placeholder ever occurs. -/
def envSuccess : Env where
  pathExists := fun _ => true
  makedirs := fun _ => .ok ()
  readRecord := fun _ => .ok [("k1", "v1"), ("k2", "v2")]
  loadDoc := fun _ => .ok { paragraphs := [], tables := [], sections := [] }
  saveDoc := fun _ _ => .ok ()
  timestamp := "20250101_000000"

/-- A merge environment in which no path exists. -/
def menvAllMissing : MergeEnv where
  pathExists := fun _ => false
  loadDoc := fun _ => .ok ()
  mkdirParent := fun _ => .ok ()
  save := fun _ => .ok ()

end ExecReports

namespace ExecReports

/-! ## Theorems: preservation of the run sequence (claim C6) -/

theorem setRunText_map_fmt (rs : List Run) (i : Nat) (t : List Char) :
    (setRunText rs i t).map Run.fmt = rs.map Run.fmt := by
  induction rs generalizing i with
  | nil => rfl
  | cons r rs ih =>
    cases i with
    | zero => rfl
    | succ n => simpa [setRunText] using ih n

theorem foldl_setRunText_map_fmt (g : RunPos → List Char) (L : List RunPos) :
    ∀ rs : List Run,
      ((L.foldl (fun a p => setRunText a p.idx (g p)) rs).map Run.fmt) =
        rs.map Run.fmt := by
  induction L with
  | nil => intro rs; rfl
  | cons p L ih =>
    intro rs
    rw [List.foldl_cons, ih, setRunText_map_fmt]

theorem spliceOnce_map_fmt (runs : List Run) (ps pe : Nat) (v : List Char) :
    (spliceOnce runs ps pe v).map Run.fmt = runs.map Run.fmt := by
  unfold spliceOnce
  cases h : (runPositions runs).filter
      (fun p => decide (p.left < pe) && decide (ps < p.right)) with
  | nil => rfl
  | cons firstp rest =>
    rw [foldl_setRunText_map_fmt, setRunText_map_fmt]

theorem crossStep_map_fmt (st : List Run × List Char)
    (pv : List Char × List Char) :
    ((crossStep st pv).1).map Run.fmt = (st.1).map Run.fmt := by
  unfold crossStep
  cases h : strFind st.2 pv.1 with
  | none => rfl
  | some ps => simpa using spliceOnce_map_fmt st.1 ps (ps + pv.1.length) pv.2

theorem foldl_crossStep_map_fmt (reps : List (List Char × List Char)) :
    ∀ st : List Run × List Char,
      ((reps.foldl crossStep st).1).map Run.fmt = (st.1).map Run.fmt := by
  induction reps with
  | nil => intro st; rfl
  | cons pv reps ih =>
    intro st
    rw [List.foldl_cons, ih, crossStep_map_fmt]

theorem runLocal_fmt (reps : List (List Char × List Char)) (r : Run) :
    (runLocal reps r).fmt = r.fmt := by
  unfold runLocal; split <;> rfl

/-- C6: substitution preserves the sequence of run objects — the run count
after `replace_text_in_runs` equals the run count before (runs whose text
becomes empty are kept rather than deleted), and every run keeps its
formatting at its original position: only text content is ever modified. -/
theorem C6_run_sequence_preserved (runs : List Run)
    (reps : List (List Char × List Char)) :
    (replace_text_in_runs runs reps).map Run.fmt = runs.map Run.fmt ∧
    (replace_text_in_runs runs reps).length = runs.length := by
  have hfmt : (replace_text_in_runs runs reps).map Run.fmt =
      runs.map Run.fmt := by
    unfold replace_text_in_runs crossRunPass
    rw [foldl_crossStep_map_fmt]
    simp [List.map_map, Function.comp, runLocal_fmt]
  refine ⟨hfmt, ?_⟩
  have := congrArg List.length hfmt
  simpa using this

/-! ## Theorems: characterization of one cross-run splice (claim C4) -/

theorem drop_min_length {α : Type} (l : List α) (k : Nat) :
    l.drop (min l.length k) = l.drop k := by
  rcases Nat.le_total l.length k with h | h
  · rw [Nat.min_eq_left h, List.drop_length, List.drop_eq_nil_of_le h]
  · rw [Nat.min_eq_right h]

theorem offAt_cons_succ (r : Run) (rs : List Run) (k : Nat) :
    offAt (r :: rs) (k + 1) = r.text.length + offAt rs k := by
  simp [offAt, List.take_succ_cons]

theorem textAt_cons_succ (r : Run) (rs : List Run) (k : Nat) :
    textAt (r :: rs) (k + 1) = textAt rs k := by
  simp [textAt]

theorem runPositionsAux_eq (rs : List Run) : ∀ i0 pos : Nat,
    runPositionsAux i0 pos rs =
      (List.range rs.length).map fun k =>
        ⟨i0 + k, pos + offAt rs k,
          pos + offAt rs k + (textAt rs k).length, textAt rs k⟩ := by
  induction rs with
  | nil => intro i0 pos; rfl
  | cons r rs ih =>
    intro i0 pos
    simp only [runPositionsAux, List.length_cons, List.range_succ_eq_map,
      List.map_cons, List.map_map, ih]
    congr 1
    · simp [offAt, textAt]
    · refine List.map_congr_left fun k _ => ?_
      simp only [Function.comp_apply, offAt_cons_succ, textAt_cons_succ,
        RunPos.mk.injEq]
      refine ⟨by omega, by omega, by omega, trivial⟩

theorem runPositions_eq (runs : List Run) :
    runPositions runs = (List.range runs.length).map (posSpec runs) := by
  rw [runPositions, runPositionsAux_eq]
  refine List.map_congr_left fun k _ => ?_
  simp [posSpec]

theorem setRunText_getElem? (rs : List Run) (i : Nat) (t : List Char) :
    ∀ j : Nat, (setRunText rs i t)[j]? =
      if j = i then (rs[i]?).map (fun r => { r with text := t })
      else rs[j]? := by
  induction rs generalizing i with
  | nil => intro j; simp [setRunText]
  | cons r rs ih =>
    intro j
    cases i with
    | zero =>
      cases j with
      | zero => simp [setRunText]
      | succ j => simp [setRunText]
    | succ n =>
      cases j with
      | zero => simp [setRunText]
      | succ j =>
        simp only [setRunText, List.getElem?_cons_succ]
        rw [ih n j]
        by_cases h : j = n <;> simp [h]

theorem foldl_setRunText_getElem? (g : RunPos → List Char) :
    ∀ L : List RunPos, L.Pairwise (fun p q => p.idx < q.idx) →
      ∀ (rs : List Run) (j : Nat),
      (L.foldl (fun a p => setRunText a p.idx (g p)) rs)[j]? =
        match L.find? (fun p => p.idx == j) with
        | some p => (rs[j]?).map fun r => { r with text := g p }
        | none => rs[j]? := by
  intro L
  induction L with
  | nil => intro _ rs j; rfl
  | cons p L ih =>
    intro hp rs j
    rcases List.pairwise_cons.mp hp with ⟨hpL, hL⟩
    rw [List.foldl_cons, ih hL]
    by_cases h : p.idx = j
    · have hb : (p.idx == j) = true := beq_iff_eq.mpr h
      have hnone : L.find? (fun q => q.idx == j) = none := by
        refine List.find?_eq_none.mpr fun q hq hbq => ?_
        have h1 : q.idx = j := eq_of_beq hbq
        have h2 := hpL q hq
        omega
      rw [hnone]
      simp [List.find?_cons, hb, setRunText_getElem?, h]
    · have hb : (p.idx == j) = false := beq_eq_false_iff_ne.mpr h
      have hrs : (setRunText rs p.idx (g p))[j]? = rs[j]? := by
        rw [setRunText_getElem?]
        exact if_neg fun hj => h hj.symm
      simp only [List.find?_cons, hb, hrs]

theorem filter_head_min (Q : Nat → Bool) :
    ∀ (l : List Nat) (k0 : Nat) (ks : List Nat), l.Pairwise (· < ·) →
      l.filter Q = k0 :: ks →
      k0 ∈ l ∧ Q k0 = true ∧ ∀ j ∈ l, Q j = true → k0 ≤ j := by
  intro l
  induction l with
  | nil => intro k0 ks _ h; simp at h
  | cons a l ih =>
    intro k0 ks hp h
    rw [List.filter_cons] at h
    rcases List.pairwise_cons.mp hp with ⟨ha, hl⟩
    by_cases hQ : Q a = true
    · rw [if_pos hQ] at h
      injection h with h1 h2
      subst h1
      refine ⟨List.mem_cons_self a l, hQ, ?_⟩
      intro j hj hQj
      rcases List.mem_cons.mp hj with rfl | hj
      · exact Nat.le_refl j
      · exact Nat.le_of_lt (ha j hj)
    · rw [if_neg hQ] at h
      obtain ⟨h1, h2, h3⟩ := ih k0 ks hl h
      refine ⟨List.mem_cons_of_mem a h1, h2, ?_⟩
      intro j hj hQj
      rcases List.mem_cons.mp hj with rfl | hj
      · exact absurd hQj hQ
      · exact h3 j hj hQj

theorem mem_tail_of_filter (Q : Nat → Bool) (l : List Nat) (k0 : Nat)
    (ks : List Nat) (h : l.filter Q = k0 :: ks) {j : Nat} (hj : j ∈ l)
    (hQ : Q j = true) (hne : j ≠ k0) : j ∈ ks := by
  have hm : j ∈ l.filter Q := List.mem_filter.mpr ⟨hj, hQ⟩
  rw [h] at hm
  rcases List.mem_cons.mp hm with rfl | hm
  · exact absurd rfl hne
  · exact hm

theorem of_mem_tail_filter (Q : Nat → Bool) (l : List Nat) (k0 : Nat)
    (ks : List Nat) (h : l.filter Q = k0 :: ks) {j : Nat} (hj : j ∈ ks) :
    Q j = true ∧ j ∈ l := by
  have hm : j ∈ l.filter Q := by
    rw [h]; exact List.mem_cons_of_mem _ hj
  exact ⟨(List.mem_filter.mp hm).2, (List.mem_filter.mp hm).1⟩

theorem find?_eq_self_of_mem : ∀ (ks : List Nat) (j : Nat), j ∈ ks →
    ks.find? (fun k => k == j) = some j := by
  intro ks
  induction ks with
  | nil => intro j h; simp at h
  | cons k ks ih =>
    intro j h
    by_cases hk : k = j
    · subst hk
      simp [List.find?_cons]
    · have hb : (k == j) = false := beq_eq_false_iff_ne.mpr hk
      have hm : j ∈ ks := by
        rcases List.mem_cons.mp h with rfl | hm
        · exact absurd rfl hk
        · exact hm
      simp only [List.find?_cons, hb]
      exact ih j hm

theorem find?_eq_none_of_not_mem (ks : List Nat) (j : Nat) (h : j ∉ ks) :
    ks.find? (fun k => k == j) = none :=
  List.find?_eq_none.mpr fun _x hx hb => h (eq_of_beq hb ▸ hx)

theorem spliceOnce_length (runs : List Run) (ps pe : Nat) (v : List Char) :
    (spliceOnce runs ps pe v).length = runs.length := by
  have := congrArg List.length (spliceOnce_map_fmt runs ps pe v)
  simpa using this

theorem cutFirst_posSpec (runs : List Run) (ps pe : Nat) (value : List Char)
    (k : Nat) :
    cutFirst ps pe value (posSpec runs k) =
      (textAt runs k).take (ps - offAt runs k) ++ value ++
        (textAt runs k).drop (pe - offAt runs k) := by
  simp [cutFirst, posSpec, drop_min_length]

theorem cutRest_posSpec (runs : List Run) (ps pe : Nat) (k : Nat) :
    cutRest ps pe (posSpec runs k) =
      (textAt runs k).take (ps - offAt runs k) ++
        (textAt runs k).drop (pe - offAt runs k) := by
  simp [cutRest, posSpec, drop_min_length]

/-- Full characterization of one cross-run splice: every run outside the
overlap set is untouched; the least-index overlapping run receives the
replacement value between its out-of-span text pieces; every other
overlapping run keeps exactly its out-of-span text. -/
theorem spliceOnce_spec (runs : List Run) (ps pe : Nat) (value : List Char) :
    (spliceOnce runs ps pe value).length = runs.length ∧
    ∀ (i : Nat) (r : Run), runs[i]? = some r →
      (¬ Affected runs ps pe i →
        (spliceOnce runs ps pe value)[i]? = some r) ∧
      (Affected runs ps pe i →
        ((∀ j, j < i → ¬ Affected runs ps pe j) →
          (spliceOnce runs ps pe value)[i]? =
            some { r with text := r.text.take (ps - offAt runs i) ++ value ++
                                    r.text.drop (pe - offAt runs i) }) ∧
        ((∃ j, j < i ∧ Affected runs ps pe j) →
          (spliceOnce runs ps pe value)[i]? =
            some { r with text := r.text.take (ps - offAt runs i) ++
                                    r.text.drop (pe - offAt runs i) })) := by
  refine ⟨spliceOnce_length runs ps pe value, ?_⟩
  intro i r hi
  have hilt : i < runs.length := (List.getElem?_eq_some_iff.mp hi).1
  have htext : textAt runs i = r.text := by simp [textAt, hi]
  have hQ : ∀ k, (((fun p => decide (p.left < pe) && decide (ps < p.right)) ∘
      posSpec runs) k = true) ↔ Affected runs ps pe k := by
    intro k
    simp [posSpec, Affected, Function.comp]
  unfold spliceOnce
  rw [runPositions_eq, List.filter_map]
  cases hfil : (List.range runs.length).filter
      ((fun p => decide (p.left < pe) && decide (ps < p.right)) ∘
        posSpec runs) with
  | nil =>
    simp only [List.map_nil]
    refine ⟨fun _ => hi, fun hAff => ?_⟩
    have hm : i ∈ (List.range runs.length).filter
        ((fun p => decide (p.left < pe) && decide (ps < p.right)) ∘
          posSpec runs) :=
      List.mem_filter.mpr ⟨List.mem_range.mpr hilt, (hQ i).mpr hAff⟩
    rw [hfil] at hm
    exact absurd hm (List.not_mem_nil i)
  | cons k0 ks =>
    simp only [List.map_cons]
    have hpw : List.Pairwise (· < ·) (k0 :: ks) := by
      have := (List.pairwise_lt_range runs.length).filter
        ((fun p => decide (p.left < pe) && decide (ps < p.right)) ∘
          posSpec runs)
      rwa [hfil] at this
    rcases List.pairwise_cons.mp hpw with ⟨hk0lt, hks⟩
    obtain ⟨hk0mem, hQk0, hleast⟩ :=
      filter_head_min _ (List.range runs.length) k0 ks
        (List.pairwise_lt_range runs.length) hfil
    have hAffk0 : Affected runs ps pe k0 := (hQ k0).mp hQk0
    have hmappw : (ks.map (posSpec runs)).Pairwise
        (fun p q => p.idx < q.idx) :=
      List.Pairwise.map _ (fun a b hab => hab) hks
    have hfold := foldl_setRunText_getElem? (cutRest ps pe)
      (ks.map (posSpec runs)) hmappw
      (setRunText runs (posSpec runs k0).idx
        (cutFirst ps pe value (posSpec runs k0))) i
    have hfind : (ks.map (posSpec runs)).find? (fun p => p.idx == i) =
        (ks.find? (fun k => k == i)).map (posSpec runs) := by
      rw [List.find?_map]
      rfl
    constructor
    · -- i is not affected: untouched
      intro hNot
      have hnotmem : i ∉ ks := fun hm =>
        hNot ((hQ i).mp (of_mem_tail_filter _ _ _ _ hfil hm).1)
      have hne : i ≠ k0 := fun he => hNot (he ▸ hAffk0)
      rw [hfold, hfind, find?_eq_none_of_not_mem ks i hnotmem]
      simp only [Option.map_none']
      rw [setRunText_getElem?]
      rw [if_neg (fun hik : i = (posSpec runs k0).idx => hne hik)]
      exact hi
    · intro hAff
      constructor
      · -- no earlier affected run: i is the first affected run
        intro hfirst
        have hik0 : i = k0 := by
          have h1 : k0 ≤ i :=
            hleast i (List.mem_range.mpr hilt) ((hQ i).mpr hAff)
          rcases Nat.lt_or_ge k0 i with h2 | h2
          · exact absurd hAffk0 (hfirst k0 h2)
          · omega
        subst hik0
        have hnotmem : i ∉ ks := fun hm => Nat.lt_irrefl i (hk0lt i hm)
        rw [hfold, hfind, find?_eq_none_of_not_mem ks i hnotmem]
        simp only [Option.map_none']
        rw [setRunText_getElem?]
        rw [if_pos (show i = (posSpec runs i).idx from rfl)]
        rw [show runs[(posSpec runs i).idx]? = runs[i]? from rfl, hi]
        simp only [Option.map_some']
        rw [cutFirst_posSpec, htext]
      · -- an earlier affected run exists: i is a subsequent affected run
        rintro ⟨j0, hj0i, hj0aff⟩
        have hne : i ≠ k0 := by
          have h1 : k0 ≤ j0 :=
            hleast j0 (List.mem_range.mpr (Nat.lt_trans hj0i hilt))
              ((hQ j0).mpr hj0aff)
          omega
        have hmem : i ∈ ks :=
          mem_tail_of_filter _ _ _ _ hfil (List.mem_range.mpr hilt)
            ((hQ i).mpr hAff) hne
        rw [hfold, hfind, find?_eq_self_of_mem ks i hmem]
        simp only [Option.map_some']
        rw [setRunText_getElem?]
        rw [if_neg (fun hik : i = (posSpec runs k0).idx => hne hik)]
        rw [hi]
        simp only [Option.map_some']
        rw [cutRest_posSpec, htext]

/-- C4: for a token occurrence located at offset `ps` in the concatenated
scope text, one cross-run splice gives the first affected run its text
before the span, then the entire replacement value, then its text after
the span; every subsequent affected run has exactly the portion of its
text inside the span removed; every run not overlapping the span — and
all formatting — is preserved verbatim. -/
theorem C4_splice_characterization (runs : List Run) (pat value : List Char)
    (ps : Nat) (_hfind : strFind (fullText runs) pat = some ps) :
    (spliceOnce runs ps (ps + pat.length) value).length = runs.length ∧
    ∀ (i : Nat) (r : Run), runs[i]? = some r →
      (¬ Affected runs ps (ps + pat.length) i →
        (spliceOnce runs ps (ps + pat.length) value)[i]? = some r) ∧
      (Affected runs ps (ps + pat.length) i →
        ((∀ j, j < i → ¬ Affected runs ps (ps + pat.length) j) →
          (spliceOnce runs ps (ps + pat.length) value)[i]? =
            some { r with text := r.text.take (ps - offAt runs i) ++ value ++
                                    r.text.drop
                                      (ps + pat.length - offAt runs i) }) ∧
        ((∃ j, j < i ∧ Affected runs ps (ps + pat.length) j) →
          (spliceOnce runs ps (ps + pat.length) value)[i]? =
            some { r with text := r.text.take (ps - offAt runs i) ++
                                    r.text.drop
                                      (ps + pat.length - offAt runs i) })) :=
  spliceOnce_spec runs ps (ps + pat.length) value

/-- C4 witness: the concrete splice of the token name-in-braces (located
at offset 6, length 6) into the three runs "Hello (brace)na", "me",
"(close)!" — the middle run is a subsequent affected run whose in-span
text "me" is removed entirely, leaving the empty run with its formatting. -/
theorem C4_splice_characterization_witness :
    (spliceOnce
      [⟨"Hello \x7bna".data, 0⟩, ⟨"me".data, 1⟩, ⟨"\x7d!".data, 2⟩]
      6 12 "World".data)[1]? = some ⟨[], 1⟩ := by
  have h := C4_splice_characterization
    [⟨"Hello \x7bna".data, 0⟩, ⟨"me".data, 1⟩, ⟨"\x7d!".data, 2⟩]
    "\x7bname\x7d".data "World".data 6 (by decide)
  have h2 := ((h.2 1 ⟨"me".data, 1⟩ rfl).2 (by decide)).2
    ⟨0, Nat.zero_lt_one, by decide⟩
  exact h2

/-! ## Theorems: concrete behavior of the engine (claims C1, C2, C3) -/

/-- C1 counterexample: with the mapping sending token brace-a-brace to the
value brace-b-brace and token brace-b-brace to "X", in that iteration
order, the scope whose single run reads brace-a-brace does NOT come out as
brace-b-brace: the run-local pass re-scans the updated run text for the
second token, so the claimed non-recursive result is refuted. -/
theorem C1_counterexample :
    fullText (replace_text_in_runs [⟨"\x7ba\x7d".data, 0⟩]
      [("\x7ba\x7d".data, "\x7bb\x7d".data), ("\x7bb\x7d".data, "X".data)]) ≠
    "\x7bb\x7d".data := by decide

/-- C1 amended: substitution IS recursive with respect to tokens that come
later in the mapping's iteration order — a replacement value spliced in for
one token is re-scanned when later tokens are processed, because the
run-local pass updates its working text after every replacement.  The
mapping of the claim applied to the scope reading brace-a-brace therefore
yields "X". -/
theorem C1_amended :
    fullText (replace_text_in_runs [⟨"\x7ba\x7d".data, 0⟩]
      [("\x7ba\x7d".data, "\x7bb\x7d".data), ("\x7bb\x7d".data, "X".data)]) =
    "X".data := by decide

/-- C2 counterexample: on the three runs "(brace)x", "(close) and (brace)x",
"(close)" — concatenated text "(brace)x(close) and (brace)x(close)" — with
the mapping sending the token to "1", the engine returns a scope whose
concatenated text is "1 and (brace)x(close)": the token of the mapping
still occurs after `replace_text_in_runs` returns, refuting the claim that
the cross-run pass repeats until no occurrence remains. -/
theorem C2_counterexample :
    containsTok
      (fullText (replace_text_in_runs
        [⟨"\x7bx".data, 0⟩, ⟨"\x7d and \x7bx".data, 1⟩, ⟨"\x7d".data, 2⟩]
        [("\x7bx\x7d".data, "1".data)]))
      "\x7bx\x7d".data = true := by decide

/-- C2 amended: the cross-run pass resolves only the FIRST occurrence of
each token, once per token, and never repeats; a second occurrence that is
itself split across runs survives (the split-run scope above comes out as
"1 and (brace)x(close)").  Multiple occurrences lying wholly within a
single run are still all replaced, by the run-local pass ("(brace)x(close)
and (brace)x(close)" in one run becomes "1 and 1"). -/
theorem C2_amended :
    fullText (replace_text_in_runs
      [⟨"\x7bx".data, 0⟩, ⟨"\x7d and \x7bx".data, 1⟩, ⟨"\x7d".data, 2⟩]
      [("\x7bx\x7d".data, "1".data)]) = "1 and \x7bx\x7d".data ∧
    fullText (replace_text_in_runs [⟨"\x7bx\x7d and \x7bx\x7d".data, 0⟩]
      [("\x7bx\x7d".data, "1".data)]) = "1 and 1".data := by
  exact ⟨by decide, by decide⟩

/-- C3: applying `replace_text_in_runs` to the three runs "Hello (brace)na",
"me", "(close)!" with the mapping sending the token name-in-braces to
"World" yields a scope whose concatenated text is exactly "Hello World!"
and in which no run's text contains any brace character. -/
theorem C3_cross_run_splice :
    fullText (replace_text_in_runs
      [⟨"Hello \x7bna".data, 0⟩, ⟨"me".data, 1⟩, ⟨"\x7d!".data, 2⟩]
      [("\x7bname\x7d".data, "World".data)]) = "Hello World!".data ∧
    (replace_text_in_runs
      [⟨"Hello \x7bna".data, 0⟩, ⟨"me".data, 1⟩, ⟨"\x7d!".data, 2⟩]
      [("\x7bname\x7d".data, "World".data)]).all
      (fun r => !(r.text.contains '\x7b') && !(r.text.contains '\x7d')) =
      true := by
  exact ⟨by decide, by decide⟩

/-! ## Theorems: scope enumeration (claim C5) -/

theorem replacePara_runs (reps : List (List Char × List Char))
    (p : Paragraph) :
    (replacePara reps p).runs = processScope reps p.runs := by
  by_cases h : p.runs = [] <;> simp [replacePara, processScope, h]

theorem runs_comp_replacePara (reps : List (List Char × List Char)) :
    Paragraph.runs ∘ replacePara reps = processScope reps ∘ Paragraph.runs :=
  funext fun p => replacePara_runs reps p

theorem tableScopes_replaceTable (reps : List (List Char × List Char))
    (t : Table) :
    tableScopes (replaceTable reps t) = (tableScopes t).map (processScope reps) := by
  unfold tableScopes replaceTable
  simp only [List.flatMap_map, List.map_flatMap, List.map_map,
    runs_comp_replacePara]

/-- C5: one substitution call covers exactly the scopes the spec lists —
the scope enumeration of the substituted document is the scope enumeration
of the input document with `replace_text_in_runs` applied to each listed
scope (top-level paragraphs, top-level table cells, header paragraphs,
footer paragraphs, footer-table cells) — and tables inside headers are not
traversed: every section's header tables are carried over verbatim. -/
theorem C5_scope_enumeration (doc : DocxDocument)
    (reps : List (List Char × List Char)) :
    scopesOf (replace_all_text doc reps) = (scopesOf doc).map (processScope reps) ∧
    (replace_all_text doc reps).sections.map (fun s => s.header.tables) =
      doc.sections.map (fun s => s.header.tables) := by
  constructor
  · unfold scopesOf replace_all_text
    simp only [List.map_append, List.map_flatMap, List.flatMap_map,
      List.map_map, runs_comp_replacePara, tableScopes_replaceTable]
  · simp only [replace_all_text, List.map_map]
    exact List.map_congr_left fun a _ => rfl

/-! ## Theorems: structured results of `process_document_template`
(claims C7 and C10) -/

/-- C7: `process_document_template` never surfaces a fault.  A missing
record file, a missing template file, a malformed JSON record, and every
other load/substitute/save error each produce a structured result with
`success := false`, a human-readable message and no output file; a
successful run produces `success := true` and a non-null output path. -/
theorem C7_structured_result (env : Env) (cdp tp od : String) :
    (env.pathExists cdp = false →
      process_document_template env cdp tp od =
        { success := false
          message := "Candidate data file not found: " ++ cdp
          output_file := none }) ∧
    (env.pathExists cdp = true → env.pathExists tp = false →
      process_document_template env cdp tp od =
        { success := false
          message := "Template file not found: " ++ tp
          output_file := none }) ∧
    (∀ e, env.pathExists cdp = true → env.pathExists tp = true →
      env.makedirs od = .ok () →
      env.readRecord cdp = .error (.jsonDecode e) →
      process_document_template env cdp tp od =
        { success := false
          message := "Error reading JSON file: " ++ e
          output_file := none }) ∧
    (((process_document_template env cdp tp od).success = true ∧
        (process_document_template env cdp tp od).output_file ≠ none) ∨
      ((process_document_template env cdp tp od).success = false ∧
        (process_document_template env cdp tp od).output_file = none)) := by
  refine ⟨?_, ?_, ?_, ?_⟩
  · intro h
    simp [process_document_template, h]
  · intro h1 h2
    simp [process_document_template, h1, h2]
  · intro e h1 h2 h3 h4
    simp [process_document_template, h1, h2, h3, h4]
  · cases h1 : env.pathExists cdp with
    | false => simp [process_document_template, h1]
    | true =>
    cases h2 : env.pathExists tp with
    | false => simp [process_document_template, h1, h2]
    | true =>
    cases h3 : env.makedirs od with
    | error e => simp [process_document_template, h1, h2, h3]
    | ok u =>
    cases h4 : env.readRecord cdp with
    | error err =>
      cases err with
      | jsonDecode e => simp [process_document_template, h1, h2, h3, h4]
      | other e => simp [process_document_template, h1, h2, h3, h4]
    | ok data =>
    cases h5 : env.loadDoc tp with
    | error e => simp [process_document_template, h1, h2, h3, h4, h5]
    | ok doc =>
    cases h6 : env.saveDoc
        (od ++ "/" ++ splitextBase (pyBasename cdp) ++ "_report_" ++
          env.timestamp ++ ".docx")
        (replace_all_text doc
          (data.map fun kv =>
            ('\x7b' :: (kv.1.data ++ ['\x7d']), kv.2.data))) with
    | error e => simp [process_document_template, h1, h2, h3, h4, h5, h6]
    | ok u2 => simp [process_document_template, h1, h2, h3, h4, h5, h6]

/-- C7 witness: in an environment where no file exists, the function
returns the structured missing-record failure for concrete paths. -/
theorem C7_structured_result_witness :
    process_document_template envAllMissing "data.json" "template.docx"
        "out" =
      { success := false
        message := "Candidate data file not found: data.json"
        output_file := none } :=
  (C7_structured_result envAllMissing "data.json" "template.docx" "out").1 rfl

/-- C10: on every successful run the message reports the size of the
replacement mapping — one entry per record key — as the number of replaced
placeholders, whatever the template contained. -/
theorem C10_replaced_count_message (env : Env) (cdp tp od : String)
    (data : List (String × String))
    (hrec : env.readRecord cdp = .ok data)
    (hsucc : (process_document_template env cdp tp od).success = true) :
    (process_document_template env cdp tp od).message =
      "Document processed successfully. Replaced " ++
        toString data.length ++ " placeholders." := by
  cases h1 : env.pathExists cdp with
  | false => simp [process_document_template, h1] at hsucc
  | true =>
  cases h2 : env.pathExists tp with
  | false => simp [process_document_template, h1, h2] at hsucc
  | true =>
  cases h3 : env.makedirs od with
  | error e => simp [process_document_template, h1, h2, h3] at hsucc
  | ok u =>
  cases h5 : env.loadDoc tp with
  | error e => simp [process_document_template, h1, h2, h3, hrec, h5] at hsucc
  | ok doc =>
  cases h6 : env.saveDoc
      (od ++ "/" ++ splitextBase (pyBasename cdp) ++ "_report_" ++
        env.timestamp ++ ".docx")
      (replace_all_text doc
        (data.map fun kv => ('\x7b' :: (kv.1.data ++ ['\x7d']), kv.2.data))) with
  | error e =>
    simp [process_document_template, h1, h2, h3, hrec, h5, h6] at hsucc
  | ok u2 =>
    simp [process_document_template, h1, h2, h3, hrec, h5, h6]

/-- C10 witness: a record with two keys against an empty template — which
contains no placeholder at all — still reports two replaced placeholders. -/
theorem C10_replaced_count_message_witness :
    (process_document_template envSuccess "c.json" "t.docx" "out").message =
      "Document processed successfully. Replaced 2 placeholders." := by
  have h := C10_replaced_count_message envSuccess "c.json" "t.docx" "out"
    [("k1", "v1"), ("k2", "v2")] rfl (by rfl)
  exact h

/-! ## Theorems: atomic input validation of `merge_shortlist_documents`
(claim C8) -/

theorem findMissing_of_exists (env : MergeEnv) :
    ∀ (cps : List String) (k : Nat),
      (∃ p ∈ cps, env.pathExists p = false) →
      ∃ i p, findMissingCandidate env k cps = some (i, p) ∧ p ∈ cps ∧
        env.pathExists p = false := by
  intro cps
  induction cps with
  | nil =>
    rintro k ⟨p, hp, _⟩
    simp at hp
  | cons q cps ih =>
    rintro k ⟨p, hp, hmiss⟩
    by_cases hq : env.pathExists q = true
    · have hp' : p ∈ cps := by
        rcases List.mem_cons.mp hp with rfl | h
        · rw [hq] at hmiss; cases hmiss
        · exact h
      obtain ⟨i, p', h1, h2, h3⟩ := ih (k + 1) ⟨p, hp', hmiss⟩
      exact ⟨i, p', by simp [findMissingCandidate, hq, h1],
        List.mem_cons_of_mem _ h2, h3⟩
    · have hqf : env.pathExists q = false := by
        simpa using hq
      exact ⟨k, q, by simp [findMissingCandidate, hqf],
        List.mem_cons_self q cps, hqf⟩

/-- C8: `merge_shortlist_documents` validates all of its input paths —
overview, end page, every candidate — before composing or writing
anything: when any input path is missing it returns a failure result
naming a missing file, produces no output file, and performs no write. -/
theorem C8_validation_atomic (env : MergeEnv) (ov : String)
    (cps : List String) (out ep : String)
    (hmiss : env.pathExists ov = false ∨ env.pathExists ep = false ∨
      ∃ p ∈ cps, env.pathExists p = false) :
    (merge_shortlist_documents env ov cps out ep).1.success = false ∧
    (merge_shortlist_documents env ov cps out ep).1.output_file = none ∧
    (merge_shortlist_documents env ov cps out ep).2 = [] ∧
    ∃ p, env.pathExists p = false ∧
      ((p = ov ∧ (merge_shortlist_documents env ov cps out ep).1.message =
          "Overview document not found: " ++ p) ∨
       (p = ep ∧ (merge_shortlist_documents env ov cps out ep).1.message =
          "End page document not found: " ++ p) ∨
       (p ∈ cps ∧ ∃ i : Nat,
          (merge_shortlist_documents env ov cps out ep).1.message =
            "Candidate document " ++ toString i ++ " not found: " ++ p)) := by
  cases h1 : env.pathExists ov with
  | false =>
    have hres : merge_shortlist_documents env ov cps out ep =
        ({ success := false
           message := "Overview document not found: " ++ ov
           output_file := none
           sections_merged := none }, []) := by
      simp [merge_shortlist_documents, h1]
    rw [hres]
    exact ⟨rfl, rfl, rfl, ov, h1, Or.inl ⟨rfl, rfl⟩⟩
  | true =>
    cases h2 : env.pathExists ep with
    | false =>
      have hres : merge_shortlist_documents env ov cps out ep =
          ({ success := false
             message := "End page document not found: " ++ ep
             output_file := none
             sections_merged := none }, []) := by
        simp [merge_shortlist_documents, h1, h2]
      rw [hres]
      exact ⟨rfl, rfl, rfl, ep, h2, Or.inr (Or.inl ⟨rfl, rfl⟩)⟩
    | true =>
      rcases hmiss with h | h | h
      · rw [h1] at h; cases h
      · rw [h2] at h; cases h
      · obtain ⟨i, p, hfind, hpmem, hpfalse⟩ := findMissing_of_exists env cps 1 h
        have hres : merge_shortlist_documents env ov cps out ep =
            ({ success := false
               message := "Candidate document " ++ toString i ++
                 " not found: " ++ p
               output_file := none
               sections_merged := none }, []) := by
          simp [merge_shortlist_documents, h1, h2, hfind]
        rw [hres]
        exact ⟨rfl, rfl, rfl, p, hpfalse,
          Or.inr (Or.inr ⟨hpmem, i, rfl⟩)⟩

/-- C8 witness: with every path missing, merging one candidate fails with
no write and no output file. -/
theorem C8_validation_atomic_witness :
    (merge_shortlist_documents menvAllMissing "ov.docx" ["c1.docx"]
      "out.docx" "end.docx").1.success = false ∧
    (merge_shortlist_documents menvAllMissing "ov.docx" ["c1.docx"]
      "out.docx" "end.docx").1.output_file = none ∧
    (merge_shortlist_documents menvAllMissing "ov.docx" ["c1.docx"]
      "out.docx" "end.docx").2 = [] := by
  have h := C8_validation_atomic menvAllMissing "ov.docx" ["c1.docx"]
    "out.docx" "end.docx" (Or.inl rfl)
  exact ⟨h.1, h.2.1, h.2.2.1⟩

/-! ## Theorems: candidate-number extraction fallback (claim C9) -/

/-- C9: `extract_candidate_number` returns the parsed number exactly for
basenames following the underscore convention whose first part is the word
candidate and whose second part parses as an integer; on every other input
string — including generated names of the shape name-underscore-timestamp
— it falls back to the constant sort key 999.  The function is total, so
it never raises. -/
theorem C9_extract_candidate_number (filepath : String) :
    (∀ n : Int,
      2 ≤ (splitUnd (pyBasename filepath).data).length →
      (splitUnd (pyBasename filepath).data).getD 0 [] = "candidate".data →
      pyInt ((splitUnd (pyBasename filepath).data).getD 1 []) = some n →
      extract_candidate_number filepath = n) ∧
    (¬(2 ≤ (splitUnd (pyBasename filepath).data).length ∧
        (splitUnd (pyBasename filepath).data).getD 0 [] = "candidate".data ∧
        (pyInt ((splitUnd (pyBasename filepath).data).getD 1 [])).isSome =
          true) →
      extract_candidate_number filepath = 999) := by
  constructor
  · intro n h1 h2 h3
    unfold extract_candidate_number
    rw [if_pos ⟨h1, h2⟩, h3]
  · intro hneg
    unfold extract_candidate_number
    by_cases hc : 2 ≤ (splitUnd (pyBasename filepath).data).length ∧
        (splitUnd (pyBasename filepath).data).getD 0 [] = "candidate".data
    · rw [if_pos hc]
      cases hp : pyInt ((splitUnd (pyBasename filepath).data).getD 1 []) with
      | none => rfl
      | some n => exact absurd ⟨hc.1, hc.2, by rw [hp]; rfl⟩ hneg
    · rw [if_neg hc]

/-- C9 witness: a conventional name yields its number, and an actual
generated clean-name-and-timestamp record name falls back to 999. -/
theorem C9_extract_candidate_number_witness :
    extract_candidate_number "data/candidate_3_Jane_Smith.json" = 3 ∧
    extract_candidate_number "data/Jane_Oliver_20251027_150239.json" = 999 := by
  constructor
  · exact (C9_extract_candidate_number "data/candidate_3_Jane_Smith.json").1
      3 (by decide) (by decide) (by decide)
  · exact (C9_extract_candidate_number
      "data/Jane_Oliver_20251027_150239.json").2 (by decide)

end ExecReports
